import Mathlib

/-!
Verification of the SpotifyPlaylister synchronization pipeline
(`src/App.tsx`) against its natural-language specification.

Strings are modelled as `List Char`; every JavaScript string operation the
source uses (regex replace with the two fixed patterns, `split(" - ")`,
`join(" - ")`, `trim`, `slice`) is translated to an executable Lean
function over `List Char`.  Network effects are modelled by explicit
oracles (`Env`, response values) and the observable behaviour of a run is
a trace of issued calls plus the appended log lines, mirroring the
control flow of `handleCreatePlaylist`.
-/

namespace SpotifyPlaylister

/-- The characters matched by the JavaScript `\s` class that are relevant
here (ASCII whitespace plus NBSP and BOM; the source data never contains
the remaining Unicode space code points). -/
def isSpaceJS (c : Char) : Bool :=
  c = ' ' || c = '\t' || c = '\n' || c = '\r' || c = '\x0b' || c = '\x0c' ||
  c = ' ' || c = '﻿'

/-- JavaScript `String.prototype.trim`: drop whitespace from both ends. -/
def trimJS (l : List Char) : List Char :=
  ((l.dropWhile isSpaceJS).reverse.dropWhile isSpaceJS).reverse

/-- Membership in the regex class `[^/.]`: neither a dot nor a slash. -/
def notDotSlash (c : Char) : Bool :=
  !(c = '.' || c = '/')

/-- Membership in the regex class `[0-9]`. -/
def isDigit09 (c : Char) : Bool :=
  '0' ≤ c && c ≤ '9'

/-- `filename.replace(/\.[^/.]+$/, "")`: if the string ends in a dot
followed by a nonempty run of characters none of which is `.` or `/`,
remove that suffix (the dot included); otherwise leave the string as is.
Implemented by scanning the reversed string: the candidate extension is
the maximal final run of non-`.`, non-`/` characters, and it is removed
exactly when it is nonempty and preceded by a dot. -/
def stripExt (s : List Char) : List Char :=
  match s.reverse.drop (s.reverse.takeWhile notDotSlash).length with
  | '.' :: rest =>
    if (s.reverse.takeWhile notDotSlash).isEmpty then s else rest.reverse
  | _ => s

/-- Membership in the regex class `[-._)]`. -/
def isSepPunct (c : Char) : Bool :=
  c = '-' || c = '.' || c = '_' || c = ')'

/-- `name.replace(/^[0-9]+\s*[-._)]*\s*/, "")`: if the string starts with
at least one ASCII digit, remove the maximal leading digit run, then
maximal whitespace, then a maximal run of `[-._)]`, then maximal
whitespace again (greedy, as the JavaScript regex behaves here). -/
def stripTrackNum (s : List Char) : List Char :=
  if (s.takeWhile isDigit09).isEmpty then s
  else
    (((s.drop (s.takeWhile isDigit09).length).dropWhile isSpaceJS).dropWhile
      isSepPunct).dropWhile isSpaceJS

/-- `name.split(" - ")`: left-to-right, non-overlapping split on the
literal three-character separator. `acc` holds the current segment,
reversed. -/
def splitDashAux : List Char → List Char → List (List Char)
  | [], acc => [acc.reverse]
  | ' ' :: '-' :: ' ' :: rest, acc => acc.reverse :: splitDashAux rest []
  | c :: rest, acc => splitDashAux rest (c :: acc)

def splitDash (s : List Char) : List (List Char) :=
  splitDashAux s []

/-- The separator `" - "` used by both `split` and `join`. -/
def dashSep : List Char := [' ', '-', ' ']

/-- The last step of `parseTrackName`: split the stripped name on
`" - "`; with at least two segments return the trimmed re-joined rest
(the title), a space, and the trimmed segment 0 (the artist); otherwise
the trimmed name. -/
def assembleQuery (name : List Char) : List Char :=
  if 2 ≤ (splitDash name).length then
    trimJS (List.intercalate dashSep (splitDash name).tail) ++
      ' ' :: trimJS (splitDash name).headI
  else trimJS name

/-- `parseTrackName` from `src/App.tsx`: strip a trailing extension,
strip a leading track-number prefix, split on `" - "`; with at least two
segments return `"{title} {artist}"` where the artist is segment 0 and
the title the re-joined rest, otherwise the trimmed remainder. -/
def parseTrackName (filename : List Char) : List Char :=
  assembleQuery (stripTrackNum (stripExt filename))

/-- `parseTrackName` on Lean `String`s, for readable statements. -/
def parseTrackNameS (s : String) : String :=
  ⟨parseTrackName s.data⟩

/-! ## The HTTP layer: `spotifyFetch` -/

/-- An HTTP response as `spotifyFetch` can observe it: a status code, the
text of the body (read by `res.text()` on the error path), the
`Retry-After` header (present in the model so that its neglect is
visible — the source never reads it), and the parsed JSON payload
(abstracted to an arbitrary type `J`, read by `res.json()` on the success
path). -/
structure HttpResponse (J : Type) where
  status : Nat
  body : String
  retryAfter : Option String
  payload : J
deriving DecidableEq

/-- `Response.ok` of the fetch API: status in the inclusive range
200–299. -/
def okStatus (n : Nat) : Bool :=
  200 ≤ n && n ≤ 299

/-- The message of the error `spotifyFetch` throws on a non-ok
response. -/
def apiErrorMsg (status : Nat) (body : String) : String :=
  "Spotify API error (" ++ toString status ++ "): " ++ body

/-- The response-consuming behaviour of one `spotifyFetch` call, given
the stream of responses the network would produce for successive fetches
of this request.  Returns the number of fetches issued and the outcome
the caller observes.  The source performs exactly one fetch and
classifies its response: ok → parsed JSON, otherwise → throw; there is no
429 branch, no read of `Retry-After`, no sleep and no retry.  An empty
stream models the fetch itself rejecting (network failure). -/
def spotifyFetchRun {J : Type} : List (HttpResponse J) → Nat × Except String J
  | [] => (0, .error "network error")
  | r :: _ =>
    (1, if okStatus r.status then .ok r.payload else .error (apiErrorMsg r.status r.body))

/-- Last-wins lookup of key `k` in a JavaScript object literal whose
entries were inserted in the order given by the list. -/
def objLookup (entries : List (String × String)) (k : String) : Option String :=
  entries.reverse.lookup k

/-- The headers of the request `spotifyFetch` sends:
`{ Authorization: Bearer <token>, "Content-Type": "application/json",
...(options.headers || {}) }`.  Caller-supplied entries are spread
*after* the two injected ones, so in the resulting object a caller entry
with the same key overwrites the injected value. -/
def headerVal (callerHeaders : List (String × String)) (accessToken : String)
    (k : String) : Option String :=
  match objLookup callerHeaders k with
  | some v => some v
  | none =>
    if k = "Authorization" then some ("Bearer " ++ accessToken)
    else if k = "Content-Type" then some "application/json"
    else none

/-! ## The token-exchange effect (`useEffect` in `App`) -/

/-- What the backend returns for the token-exchange POST: an HTTP status
and the `access_token` field of the JSON body (`none` when the field is
absent). -/
structure ExchangeResponse where
  status : Nat
  access_token : Option String
deriving DecidableEq

/-- The observable outcome of one evaluation of the token-exchange
effect: whether the exchange POST was issued, and — when the `.then`
chain ran — the value passed to `setAccessToken` (`some none` means the
state was set to the absent `data.access_token`). -/
structure ExchangeOutcome where
  exchangeCalled : Bool
  tokenSet : Option (Option String)
deriving DecidableEq

/-- The token-exchange effect from `App`'s `useEffect`, as a function of
the `code` query parameter, the current `accessToken` state, the
persisted verifier, and the backend's response.  The source issues the
POST only when a code is present, no token is set and a verifier is
stored; it then reads `data.access_token` and stores it without ever
inspecting the response status, and it surfaces no error value in any
case. -/
def completeLogin (code : Option String) (accessToken : String)
    (storedVerifier : Option String) (resp : ExchangeResponse) : ExchangeOutcome :=
  match code with
  | none => ⟨false, none⟩
  | some _ =>
    if accessToken ≠ "" then ⟨false, none⟩
    else
      match storedVerifier with
      | none => ⟨false, none⟩
      | some _ => ⟨true, some resp.access_token⟩

/-- The result of `completeLogin` as §4.2 of the specification describes
it. -/
inductive SpecLoginResult
| missingVerifier
| tokenExchangeFailed (status : Nat)
| authenticated (tok : String)
deriving DecidableEq

/-- Modelled from the spec (§4.2 `completeLogin`), for comparison with
the source behaviour: fail with `MissingVerifier` when no verifier is
persisted; fail with `TokenExchangeFailed` carrying the upstream status
on any non-2xx response (or when no access token is returned); otherwise
transition to `Authenticated` with the returned token. -/
def completeLoginSpec (storedVerifier : Option String)
    (resp : ExchangeResponse) : SpecLoginResult :=
  match storedVerifier with
  | none => .missingVerifier
  | some _ =>
    if okStatus resp.status then
      match resp.access_token with
      | some t => .authenticated t
      | none => .tokenExchangeFailed resp.status
    else .tokenExchangeFailed resp.status

/-! ## The pipeline: `handleCreatePlaylist` -/

/-- The playlist object as `handleCreatePlaylist` uses it: `id` and
`external_urls.spotify`. -/
structure Playlist where
  id : String
  url : String
deriving DecidableEq

/-- The network oracle for one run: the outcome of the profile fetch, of
playlist creation, of the `i`-th search call, and of the `i`-th append
(chunk write) call.  `Except.error m` is a thrown `spotifyFetch` error
with message `m`. -/
structure Env where
  profile : Except String String
  create : Except String Playlist
  search : Nat → Except String (Option String)
  append : Nat → Except String Unit

/-- One network call issued by the run, with its argument. -/
inductive Call
| profile
| create
| search (q : String)
| append (uris : List String)
deriving DecidableEq

/-- The chunk partition of `addTracks`: the loop
`for (i = 0; i < uris.length; i += 100)` takes `uris.slice(i, i + 100)`
per iteration.  `chunksGo` recurses on a fuel that the caller sets to the
list length (each iteration consumes at least one element, so the fuel
never runs out). -/
def chunksGo {α : Type} : Nat → List α → List (List α)
  | _, [] => []
  | 0, _ :: _ => []
  | fuel + 1, x :: xs => ((x :: xs).take 100) :: chunksGo fuel ((x :: xs).drop 100)

def chunks {α : Type} (l : List α) : List (List α) :=
  chunksGo l.length l

/-- The sequential chunk writes of `addTracks`: one call per chunk, in
order, each awaited before the next; a thrown error stops the loop and
propagates. `i` counts the append calls already issued. -/
def appendChunks (env : Env) : List (List String) → Nat → List Call × Except String Unit
  | [], _ => ([], .ok ())
  | c :: rest, i =>
    match env.append i with
    | .error e => ([.append c], .error e)
    | .ok _ =>
      let p := appendChunks env rest (i + 1)
      (.append c :: p.1, p.2)

/-- `addTracks(playlistId, uris)`: chunk the uris and write the chunks
sequentially.  Returns the issued calls and the propagated outcome. -/
def addTracksRun (env : Env) (uris : List String) : List Call × Except String Unit :=
  appendChunks env (chunks uris) 0

/-- The per-item search loop of `handleCreatePlaylist`: for each name in
order, one search call; a found uri is accumulated and logged, a miss is
logged, a thrown search error is caught and logged — no outcome stops
the loop.  `i` counts the search calls already issued; returns
(calls, log entries, accumulated uris). -/
def searchLoop (env : Env) : List String → Nat → List Call × List String × List String
  | [], _ => ([], [], [])
  | n :: rest, i =>
    let t := searchLoop env rest (i + 1)
    match env.search i with
    | .ok (some u) => (.search n :: t.1, ("✔ Found: " ++ n) :: t.2.1, u :: t.2.2)
    | .ok none => (.search n :: t.1, ("❌ Not found: " ++ n) :: t.2.1, t.2.2)
    | .error m =>
      (.search n :: t.1, ("⚠️ Error searching \"" ++ n ++ "\": " ++ m) :: t.2.1, t.2.2)

/-- The observable result of one `handleCreatePlaylist` run: the network
calls issued in order, the log lines appended in order, the playlist URL
state, and the argument passed to `addTracks` when that step is
reached. -/
structure RunResult where
  calls : List Call
  logs : List String
  playlistUrl : Option String
  appended : Option (List String)
deriving DecidableEq

/-- The log line of the outer `catch`. -/
def failLog (e : String) : String := "❌ Failed: " ++ e

/-- `handleCreatePlaylist` of `src/App.tsx`: return at once on an empty
track list (only an alert is shown; nothing appended, no network);
otherwise fetch the profile, create the playlist — a thrown error from
either lands in the outer catch before any search —, record the playlist
URL, run the search loop, then either log "No tracks found" (no append
call) or pass the full uri list to `addTracks` and log the added count,
with an `addTracks` error landing in the outer catch. -/
def run (env : Env) (trackNames : List String) : RunResult :=
  if trackNames.isEmpty then ⟨[], [], none, none⟩
  else
    let l0 := ["\n⏳ Processing..."]
    match env.profile with
    | .error e => ⟨[.profile], l0 ++ [failLog e], none, none⟩
    | .ok _me =>
      match env.create with
      | .error e => ⟨[.profile, .create], l0 ++ [failLog e], none, none⟩
      | .ok pl =>
        let l1 := l0 ++ ["✅ Playlist created: " ++ pl.url]
        let t := searchLoop env trackNames 0
        let calls1 := Call.profile :: Call.create :: t.1
        let logs1 := l1 ++ t.2.1
        let uris := t.2.2
        if uris.isEmpty then
          ⟨calls1, logs1 ++ ["⚠️ No tracks found."], some pl.url, none⟩
        else
          let a := addTracksRun env uris
          match a.2 with
          | .ok _ =>
            ⟨calls1 ++ a.1,
             logs1 ++ ["🎉 Added " ++ toString uris.length ++ " tracks!"],
             some pl.url, some uris⟩
          | .error e => ⟨calls1 ++ a.1, logs1 ++ [failLog e], some pl.url, some uris⟩

/-- The log entry the loop produces for the `i`-th name `n`. -/
def itemLog (env : Env) (i : Nat) (n : String) : String :=
  match env.search i with
  | .ok (some _) => "✔ Found: " ++ n
  | .ok none => "❌ Not found: " ++ n
  | .error m => "⚠️ Error searching \"" ++ n ++ "\": " ++ m

/-- The per-item log entries, one per name, in input order. -/
def perItemLogs (env : Env) : List String → Nat → List String
  | [], _ => []
  | n :: rest, i => itemLog env i n :: perItemLogs env rest (i + 1)

/-- The successfully matched references, in input order, duplicates
kept. -/
def matchedRefs (env : Env) : List String → Nat → List String
  | [], _ => []
  | _ :: rest, i =>
    match env.search i with
    | .ok (some u) => u :: matchedRefs env rest (i + 1)
    | _ => matchedRefs env rest (i + 1)

/-- The queries of the search calls in a trace, in order. -/
def searchCallsOf (calls : List Call) : List String :=
  calls.filterMap fun c => match c with | .search q => some q | _ => none

/-- The arguments of the append calls in a trace, in order. -/
def appendCallsOf (calls : List Call) : List (List String) :=
  calls.filterMap fun c => match c with | .append u => some u | _ => none

/-- Network oracle with every append call succeeding, for concrete
runs. -/
def envAllOk : Env :=
  ⟨.ok "me", .ok ⟨"pid", "purl"⟩, fun _ => .ok none, fun _ => .ok ()⟩

/-- Network oracle whose playlist creation fails. -/
def envCreateFail : Env :=
  ⟨.ok "me", .error "Spotify API error (500): boom", fun _ => .ok none, fun _ => .ok ()⟩

/-- Network oracle where search 0 throws, search 1 matches and every
other search misses. -/
def envMixed : Env :=
  ⟨.ok "me", .ok ⟨"pid", "purl"⟩,
   fun i =>
     if i = 0 then .error "network down"
     else if i = 1 then .ok (some "spotify:track:1")
     else .ok none,
   fun _ => .ok ()⟩

/-- Network oracle where every search matches, the uri recording the
call index. -/
def envDup : Env :=
  ⟨.ok "me", .ok ⟨"pid", "purl"⟩,
   fun i => .ok (some ("spotify:track:" ++ toString i)),
   fun _ => .ok ()⟩

end SpotifyPlaylister

namespace SpotifyPlaylister

example : parseTrackNameS "05 - Artist - Title.mp3" = "Title Artist" := by decide

example : parseTrackNameS "Interlude.wav" = "Interlude" := by decide

example : parseTrackNameS "" = "" := by decide

example : parseTrackNameS "100.mp3" = "" := by decide

example : parseTrackNameS "0042" = "" := by decide

/-! ## Helper lemmas about `parseTrackName` -/

theorem takeWhile_append_stop {p : Char → Bool} (a : List Char) (x : Char)
    (b : List Char) (ha : ∀ c ∈ a, p c = true) (hx : p x = false) :
    (a ++ x :: b).takeWhile p = a := by
  induction a with
  | nil => simp [List.takeWhile, hx]
  | cons y ys ih =>
    have hy : p y = true := ha y (by simp)
    simp only [List.cons_append, List.takeWhile, hy]
    rw [List.append_eq, ih (fun c hc => ha c (by simp [hc]))]

theorem stripExt_no_dot_slash (l : List Char) (h : ∀ c ∈ l, notDotSlash c = true) :
    stripExt l = l := by
  unfold stripExt
  have hrev : ∀ c ∈ l.reverse, notDotSlash c = true := fun c hc =>
    h c (List.mem_reverse.mp hc)
  have htw : l.reverse.takeWhile notDotSlash = l.reverse :=
    List.takeWhile_eq_self_iff.mpr hrev
  rw [htw, List.drop_length]

theorem stripExt_removes_ext (ds t : List Char) (hne : t ≠ [])
    (h : ∀ c ∈ t, notDotSlash c = true) :
    stripExt (ds ++ '.' :: t) = ds := by
  unfold stripExt
  have hrev : (ds ++ '.' :: t).reverse = t.reverse ++ '.' :: ds.reverse := by
    simp
  have htw : (t.reverse ++ '.' :: ds.reverse).takeWhile notDotSlash = t.reverse :=
    takeWhile_append_stop t.reverse '.' ds.reverse
      (fun c hc => h c (List.mem_reverse.mp hc)) (by decide)
  rw [hrev, htw, List.drop_left]
  have hre : t.reverse.isEmpty = false := by
    cases ht : t.reverse with
    | nil => exact absurd (List.reverse_eq_nil_iff.mp ht) hne
    | cons a b => rfl
  simp [hre]

theorem stripTrackNum_all_digits (ds : List Char) (hne : ds ≠ [])
    (h : ∀ c ∈ ds, isDigit09 c = true) :
    stripTrackNum ds = [] := by
  unfold stripTrackNum
  have htw : ds.takeWhile isDigit09 = ds :=
    List.takeWhile_eq_self_iff.mpr h
  rw [htw]
  have hie : ds.isEmpty = false := by
    cases ds with
    | nil => exact absurd rfl hne
    | cons a b => rfl
  simp [hie, List.drop_length]

theorem digit_notDotSlash (c : Char) (h : isDigit09 c = true) :
    notDotSlash c = true := by
  unfold isDigit09 at h
  unfold notDotSlash
  simp only [Bool.and_eq_true, decide_eq_true_eq] at h
  simp only [Bool.not_eq_true', Bool.or_eq_false_iff, decide_eq_false_iff_not]
  constructor
  · intro hc; subst hc; exact absurd h.1 (by decide)
  · intro hc; subst hc; exact absurd h.1 (by decide)

theorem parseTrackName_nil : parseTrackName [] = [] := by decide

/-! ## Claim theorems for the name normalizer -/

/-- C4: `parseTrackName` is a pure total function — it is a Lean `def`,
hence terminating and exception-free, and referentially transparent:
equal inputs give equal outputs — and it maps
`"05 - Artist - Title.mp3"` to `"Title Artist"`, `"Interlude.wav"` to
`"Interlude"` and `""` to `""`. -/
theorem parseTrackName_pure_and_examples :
    (∀ s t : String, s = t → parseTrackNameS s = parseTrackNameS t) ∧
    parseTrackNameS "05 - Artist - Title.mp3" = "Title Artist" ∧
    parseTrackNameS "Interlude.wav" = "Interlude" ∧
    parseTrackNameS "" = "" :=
  ⟨fun _ _ h => by rw [h], by decide, by decide, by decide⟩

/-- Witness for C4: the determinism part at a concrete input. -/
theorem parseTrackName_pure_and_examples_witness :
    parseTrackNameS "05 - Artist - Title.mp3" =
      parseTrackNameS "05 - Artist - Title.mp3" :=
  parseTrackName_pure_and_examples.1 "05 - Artist - Title.mp3"
    "05 - Artist - Title.mp3" rfl

/-- C10: a file name that is a nonempty run of ASCII digits, optionally
followed by one extension suffix (a dot and a nonempty run of characters
none of which is a dot or slash), normalizes to the empty string: the
extension is stripped, then the track-number rule consumes the entire
digit run, and the empty remainder splits into a single empty segment. -/
theorem parseTrackName_digits_only (ds ext : List Char) (hne : ds ≠ [])
    (hd : ∀ c ∈ ds, isDigit09 c = true)
    (he : ext = [] ∨ ∃ t, ext = '.' :: t ∧ t ≠ [] ∧ ∀ c ∈ t, notDotSlash c = true) :
    parseTrackName (ds ++ ext) = [] := by
  have hstrip : stripExt (ds ++ ext) = ds := by
    rcases he with rfl | ⟨t, rfl, htne, ht⟩
    · rw [List.append_nil]
      exact stripExt_no_dot_slash ds (fun c hc => digit_notDotSlash c (hd c hc))
    · exact stripExt_removes_ext ds t htne ht
  unfold parseTrackName
  rw [hstrip, stripTrackNum_all_digits ds hne hd]
  decide

/-- Witness for C10: `"100.mp3"` normalizes to the empty string. -/
theorem parseTrackName_digits_only_witness :
    parseTrackName ("100.mp3".data) = [] := by
  have h := parseTrackName_digits_only ['1', '0', '0'] ['.', 'm', 'p', '3']
    (by decide) (by decide)
    (Or.inr ⟨['m', 'p', '3'], rfl, by decide, by decide⟩)
  simpa using h

/-! ## Claim theorems for `spotifyFetch` (C1, C2) -/

/-- C1 counterexample: a request whose response stream is a 429 (with a
`Retry-After` header) followed by a 200 makes exactly one fetch and
surfaces the 429 to the caller as the thrown error
`Spotify API error (429): rate limited`; the retry that would consume
the 200 never happens, refuting the claim that the caller observes no
error and that 429 is never terminal. -/
theorem spotifyFetch_429_surfaced :
    spotifyFetchRun
        [(⟨429, "rate limited", some "2", ()⟩ : HttpResponse Unit),
         ⟨200, "ok", none, ()⟩] =
      (1, Except.error "Spotify API error (429): rate limited") := by
  rfl

/-- C1 amended: `spotifyFetch` classifies every non-ok response — 429
included — as a terminal error: it performs exactly one fetch and throws
`Spotify API error (<status>): <body>`, never reading `Retry-After`,
sleeping or retrying. -/
theorem spotifyFetch_non2xx_terminal {J : Type} (r : HttpResponse J)
    (rest : List (HttpResponse J)) (h : okStatus r.status = false) :
    spotifyFetchRun (r :: rest) = (1, Except.error (apiErrorMsg r.status r.body)) := by
  simp [spotifyFetchRun, h]

/-- Witness for the amended C1, at a concrete 429 response. -/
theorem spotifyFetch_non2xx_terminal_witness :
    spotifyFetchRun [(⟨429, "slow down", some "1", ()⟩ : HttpResponse Unit)] =
      (1, Except.error (apiErrorMsg 429 "slow down")) :=
  spotifyFetch_non2xx_terminal ⟨429, "slow down", some "1", ()⟩ [] (by decide)

/-- C2 counterexample: caller-supplied headers are spread after the
injected ones, so a caller entry keyed `Authorization` replaces the
client-owned header: with caller header `Authorization: Bearer attacker`
and client token `"token"`, the outgoing Authorization value is the
caller's, not `Bearer token`. -/
theorem headers_caller_overrides_auth :
    headerVal [("Authorization", "Bearer attacker")] "token" "Authorization" =
        some "Bearer attacker" ∧
      ("Bearer attacker" : String) ≠ "Bearer " ++ "token" := by
  constructor
  · decide
  · decide

/-- C2 amended: `spotifyFetch` injects `Authorization: Bearer <token>`,
but the caller's spread wins on key collision; the injected value is the
one on the outgoing request exactly when the caller supplies no
`Authorization` entry of its own — which is the case at every
`spotifyFetch` call site in this program, none of which passes custom
headers. -/
theorem headers_auth_injected (callerHeaders : List (String × String))
    (accessToken : String)
    (h : objLookup callerHeaders "Authorization" = none) :
    headerVal callerHeaders accessToken "Authorization" =
      some ("Bearer " ++ accessToken) := by
  simp [headerVal, h]

/-- Witness for the amended C2: the empty caller-header list each call
site of the program passes. -/
theorem headers_auth_injected_witness :
    headerVal [] "token" "Authorization" = some ("Bearer " ++ "token") :=
  headers_auth_injected [] "token" (by decide)

/-! ## Claim theorems for the token exchange (C7) -/

/-- C7 counterexample: with a persisted verifier and a backend response
of status 400 carrying no access token, the effect does not fail with
`TokenExchangeFailed` — it issues the exchange and stores the absent
`access_token` field without inspecting the status — while the
specification demands `TokenExchangeFailed 400`. -/
theorem completeLogin_ignores_status :
    completeLogin (some "authcode") "" (some "verifier") ⟨400, none⟩ =
        ⟨true, some none⟩ ∧
      completeLoginSpec (some "verifier") ⟨400, none⟩ =
        SpecLoginResult.tokenExchangeFailed 400 := by
  constructor
  · rfl
  · rfl

/-- C7 amended: with an auth code present and no token yet, the effect
silently does nothing when no verifier is persisted (no exchange call,
and no `MissingVerifier` error value is surfaced), and with a persisted
verifier it issues the exchange and unconditionally stores the response
body's `access_token` field, ignoring the HTTP status — so it ends up
authenticated exactly when the body carried a token, but a non-2xx
response is never surfaced as `TokenExchangeFailed`. -/
theorem completeLogin_behaviour (c v : String) (resp : ExchangeResponse) :
    completeLogin (some c) "" none resp = ⟨false, none⟩ ∧
      completeLogin (some c) "" (some v) resp = ⟨true, some resp.access_token⟩ := by
  constructor
  · rfl
  · rfl

/-! ## Claim theorems for the pipeline preconditions (C8, C5) -/

/-- C8: on an empty track list the run returns at once with the
empty-input alert and performs zero network calls — no profile fetch, no
playlist creation, no search, no append — and appends no log lines. -/
theorem run_empty_input (env : Env) :
    run env [] = ⟨[], [], none, none⟩ := rfl

/-- C5: if playlist creation fails, the run's trace contains zero search
calls and zero append calls: the thrown creation error lands in the
outer catch before the search loop starts. -/
theorem run_abort_on_create_failure (env : Env) (names : List String)
    (e : String) (h : env.create = Except.error e) :
    searchCallsOf (run env names).calls = [] ∧
      appendCallsOf (run env names).calls = [] := by
  unfold run
  cases names with
  | nil => exact ⟨rfl, rfl⟩
  | cons n rest =>
    cases hp : env.profile with
    | error e' => exact ⟨rfl, rfl⟩
    | ok me => rw [h]; exact ⟨rfl, rfl⟩

/-- Witness for C5: a failing creation, two input names, no search or
append call in the trace. -/
theorem run_abort_on_create_failure_witness :
    searchCallsOf (run envCreateFail ["a", "b"]).calls = [] ∧
      appendCallsOf (run envCreateFail ["a", "b"]).calls = [] :=
  run_abort_on_create_failure envCreateFail ["a", "b"]
    "Spotify API error (500): boom" rfl

/-! ## Helper lemmas about chunking -/

theorem chunksGo_fuel_irrelevant {α : Type} (f₁ : Nat) :
    ∀ (f₂ : Nat) (l : List α), l.length ≤ f₁ → l.length ≤ f₂ →
      chunksGo f₁ l = chunksGo f₂ l := by
  induction f₁ with
  | zero =>
    intro f₂ l h₁ _
    cases l with
    | nil => cases f₂ <;> rfl
    | cons x xs => simp at h₁
  | succ f ih =>
    intro f₂ l h₁ h₂
    cases l with
    | nil => cases f₂ <;> rfl
    | cons x xs =>
      cases f₂ with
      | zero => simp at h₂
      | succ g =>
        simp only [chunksGo]
        congr 1
        apply ih
        · simp only [List.length_drop, List.length_cons] at *
          omega
        · simp only [List.length_drop, List.length_cons] at *
          omega

theorem chunks_cons {α : Type} (x : α) (xs : List α) :
    chunks (x :: xs) = (x :: xs).take 100 :: chunks ((x :: xs).drop 100) := by
  unfold chunks
  simp only [List.length_cons, chunksGo]
  congr 1
  apply chunksGo_fuel_irrelevant
  · simp only [List.length_drop, List.length_cons]
    omega
  · exact le_rfl

theorem chunks_props {α : Type} :
    ∀ (n : Nat) (l : List α), l.length ≤ n →
      (chunks l).length = (l.length + 99) / 100 ∧
      (chunks l).flatten = l ∧
      ∀ c ∈ chunks l, c.length ≤ 100 := by
  intro n
  induction n with
  | zero =>
    intro l h
    have : l = [] := List.length_eq_zero.mp (Nat.le_zero.mp h)
    subst this
    exact ⟨by norm_num [chunks, chunksGo], rfl,
      by intro c hc; simp [chunks, chunksGo] at hc⟩
  | succ n ih =>
    intro l h
    cases l with
    | nil =>
      exact ⟨by norm_num [chunks, chunksGo], rfl,
        by intro c hc; simp [chunks, chunksGo] at hc⟩
    | cons x xs =>
      rw [chunks_cons]
      have hd : ((x :: xs).drop 100).length ≤ n := by
        simp only [List.length_drop, List.length_cons] at *
        omega
      obtain ⟨ih1, ih2, ih3⟩ := ih _ hd
      refine ⟨?_, ?_, ?_⟩
      · simp only [List.length_cons, ih1, List.length_drop] at *
        rcases le_or_lt (xs.length + 1) 100 with hle | hgt
        · have h0 : xs.length + 1 - 100 = 0 := by omega
          rw [h0]
          have l99 : (0 + 99) / 100 = 0 := by decide
          rw [l99]
          have : (xs.length + 1 + 99) / 100 = 1 :=
            Nat.div_eq_of_lt_le (by omega) (by omega)
          omega
        · have h1 : xs.length + 1 - 100 + 99 = xs.length := by omega
          have h2 : xs.length + 1 + 99 = xs.length + 100 := by omega
          rw [h1, h2, Nat.add_div_right _ (by omega)]
      · simp only [List.flatten_cons, ih2, List.take_append_drop]
      · intro c hc
        rcases List.mem_cons.mp hc with rfl | hc'
        · simp only [List.length_take]
          omega
        · exact ih3 c hc'

theorem appendChunks_all_ok (env : Env) (hok : ∀ i, env.append i = Except.ok ()) :
    ∀ (cs : List (List String)) (i : Nat),
      appendChunks env cs i = (cs.map Call.append, Except.ok ()) := by
  intro cs
  induction cs with
  | nil => intro i; rfl
  | cons c rest ih =>
    intro i
    simp only [appendChunks, hok i, ih (i + 1), List.map_cons]

/-- C3: `addTracks` partitions the uri list into chunks of at most 100
and issues one write call per chunk, sequentially and in order; the
number of write calls is exactly `⌈N/100⌉ = (N + 99) / 100`, and the
chunks concatenate back to the input list — nothing omitted, duplicated
or reordered. -/
theorem addTracks_chunking (env : Env) (uris : List String)
    (hok : ∀ i, env.append i = Except.ok ()) :
    (addTracksRun env uris).1 = (chunks uris).map Call.append ∧
      (chunks uris).length = (uris.length + 99) / 100 ∧
      (∀ c ∈ chunks uris, c.length ≤ 100) ∧
      (chunks uris).flatten = uris := by
  obtain ⟨h1, h2, h3⟩ := chunks_props uris.length uris le_rfl
  exact ⟨by rw [addTracksRun, appendChunks_all_ok env hok], h1, h3, h2⟩

/-- Witness for C3: 150 references give two ordered chunk writes. -/
theorem addTracks_chunking_witness :
    (addTracksRun envAllOk (List.replicate 150 "u")).1 =
        (chunks (List.replicate 150 "u")).map Call.append ∧
      (chunks (List.replicate 150 "u")).length = (150 + 99) / 100 ∧
      (∀ c ∈ chunks (List.replicate 150 "u"), c.length ≤ 100) ∧
      (chunks (List.replicate 150 "u")).flatten = List.replicate 150 "u" := by
  have h := addTracks_chunking envAllOk (List.replicate 150 "u") (fun _ => rfl)
  simpa using h

/-! ## Helper lemmas about the search loop and the run -/

theorem searchLoop_spec (env : Env) (names : List String) :
    ∀ i, (searchLoop env names i).1 = names.map Call.search ∧
      (searchLoop env names i).2.1 = perItemLogs env names i ∧
      (searchLoop env names i).2.2 = matchedRefs env names i := by
  induction names with
  | nil => intro i; exact ⟨rfl, rfl, rfl⟩
  | cons n rest ih =>
    intro i
    obtain ⟨h1, h2, h3⟩ := ih (i + 1)
    simp only [searchLoop, perItemLogs, matchedRefs, itemLog, List.map_cons]
    cases hs : env.search i with
    | error m => simp [h1, h2, h3]
    | ok o =>
      cases o with
      | none => simp [h1, h2, h3]
      | some u => simp [h1, h2, h3]

theorem perItemLogs_length (env : Env) (names : List String) :
    ∀ i, (perItemLogs env names i).length = names.length := by
  induction names with
  | nil => intro i; rfl
  | cons n rest ih => intro i; simp [perItemLogs, ih (i + 1)]

theorem searchCallsOf_append (a b : List Call) :
    searchCallsOf (a ++ b) = searchCallsOf a ++ searchCallsOf b := by
  simp [searchCallsOf]

theorem searchCallsOf_searches (names : List String) :
    searchCallsOf (names.map Call.search) = names := by
  induction names with
  | nil => rfl
  | cons n rest ih => simp [searchCallsOf, List.filterMap_cons] at *; exact ih

theorem appendChunks_no_search (env : Env) :
    ∀ (cs : List (List String)) (i : Nat),
      searchCallsOf (appendChunks env cs i).1 = [] := by
  intro cs
  induction cs with
  | nil => intro i; rfl
  | cons c rest ih =>
    intro i
    cases ha : env.append i with
    | error e => simp [appendChunks, ha, searchCallsOf, List.filterMap_cons]
    | ok u =>
      cases u
      simp only [appendChunks, ha]
      simpa [searchCallsOf, List.filterMap_cons] using ih (i + 1)

theorem run_ok_no_matches (env : Env) (n : String) (rest : List String)
    (me : String) (pl : Playlist)
    (hp : env.profile = Except.ok me) (hc : env.create = Except.ok pl)
    (hm : matchedRefs env (n :: rest) 0 = []) :
    run env (n :: rest) =
      ⟨Call.profile :: Call.create :: (n :: rest).map Call.search,
       "\n⏳ Processing..." :: ("✅ Playlist created: " ++ pl.url) ::
         (perItemLogs env (n :: rest) 0 ++ ["⚠️ No tracks found."]),
       some pl.url, none⟩ := by
  obtain ⟨h1, h2, h3⟩ := searchLoop_spec env (n :: rest) 0
  unfold run
  simp only [List.isEmpty_cons, Bool.false_eq_true, if_false, hp, hc, h1, h2, h3,
    hm, List.isEmpty_nil, if_true]
  rfl

theorem run_ok_matches (env : Env) (n : String) (rest : List String)
    (me : String) (pl : Playlist)
    (hp : env.profile = Except.ok me) (hc : env.create = Except.ok pl)
    (hm : matchedRefs env (n :: rest) 0 ≠ []) :
    run env (n :: rest) =
      ⟨Call.profile :: Call.create ::
         ((n :: rest).map Call.search ++
           (addTracksRun env (matchedRefs env (n :: rest) 0)).1),
       "\n⏳ Processing..." :: ("✅ Playlist created: " ++ pl.url) ::
         (perItemLogs env (n :: rest) 0 ++
           [match (addTracksRun env (matchedRefs env (n :: rest) 0)).2 with
            | .ok _ =>
              "🎉 Added " ++ toString (matchedRefs env (n :: rest) 0).length ++
                " tracks!"
            | .error e => failLog e]),
       some pl.url, some (matchedRefs env (n :: rest) 0)⟩ := by
  obtain ⟨h1, h2, h3⟩ := searchLoop_spec env (n :: rest) 0
  have hie : (matchedRefs env (n :: rest) 0).isEmpty = false := by
    cases hmr : matchedRefs env (n :: rest) 0 with
    | nil => exact absurd hmr hm
    | cons y ys => rfl
  unfold run
  simp only [List.isEmpty_cons, Bool.false_eq_true, if_false, hp, hc, h1, h2, h3,
    hie]
  cases ha : (addTracksRun env (matchedRefs env (n :: rest) 0)).2 with
  | ok u => cases u; rfl
  | error e => rfl

/-! ## Claim theorems for the run (C6, C9) -/

/-- C6: with profile and creation succeeding and a nonempty input, the
run always completes with a single terminal log line; the loop produces
exactly one log entry per input name, in input order, whatever mix of
matches, misses and thrown search errors the oracle returns; and
`addTracks` receives exactly the successfully matched references (and is
not called when there are none). -/
theorem run_isolation (env : Env) (names : List String) (me : String)
    (pl : Playlist)
    (hp : env.profile = Except.ok me) (hc : env.create = Except.ok pl)
    (hne : names ≠ []) :
    (∃ finalLog, (run env names).logs =
        "\n⏳ Processing..." :: ("✅ Playlist created: " ++ pl.url) ::
          (perItemLogs env names 0 ++ [finalLog])) ∧
      (perItemLogs env names 0).length = names.length ∧
      (run env names).appended =
        (if matchedRefs env names 0 = [] then none
         else some (matchedRefs env names 0)) := by
  cases names with
  | nil => exact absurd rfl hne
  | cons n rest =>
    refine ⟨?_, perItemLogs_length env (n :: rest) 0, ?_⟩
    all_goals by_cases hm : matchedRefs env (n :: rest) 0 = []
    · rw [run_ok_no_matches env n rest me pl hp hc hm]
      exact ⟨"⚠️ No tracks found.", rfl⟩
    · rw [run_ok_matches env n rest me pl hp hc hm]
      exact ⟨_, rfl⟩
    · rw [run_ok_no_matches env n rest me pl hp hc hm, if_pos hm]
    · rw [run_ok_matches env n rest me pl hp hc hm, if_neg hm]

/-- Witness for C6: three names where search 0 throws, search 1 matches
and search 2 misses. -/
theorem run_isolation_witness :
    (∃ finalLog, (run envMixed ["a", "b", "c"]).logs =
        "\n⏳ Processing..." :: ("✅ Playlist created: " ++ "purl") ::
          (perItemLogs envMixed ["a", "b", "c"] 0 ++ [finalLog])) ∧
      (perItemLogs envMixed ["a", "b", "c"] 0).length = 3 ∧
      (run envMixed ["a", "b", "c"]).appended =
        (if matchedRefs envMixed ["a", "b", "c"] 0 = [] then none
         else some (matchedRefs envMixed ["a", "b", "c"] 0)) :=
  run_isolation envMixed ["a", "b", "c"] "me" ⟨"pid", "purl"⟩ rfl rfl
    (by decide)

/-- C9: with profile and creation succeeding, the search calls of the
trace are exactly the input names — in input order, duplicates searched
twice, nothing reordered or deduplicated — and the reference list handed
to `addTracks` is the matched references in that same input order,
duplicates kept. -/
theorem run_order_no_dedup (env : Env) (names : List String) (me : String)
    (pl : Playlist)
    (hp : env.profile = Except.ok me) (hc : env.create = Except.ok pl) :
    searchCallsOf (run env names).calls = names ∧
      (run env names).appended =
        (if matchedRefs env names 0 = [] then none
         else some (matchedRefs env names 0)) := by
  cases names with
  | nil => exact ⟨rfl, rfl⟩
  | cons n rest =>
    by_cases hm : matchedRefs env (n :: rest) 0 = []
    · rw [run_ok_no_matches env n rest me pl hp hc hm, if_pos hm]
      refine ⟨?_, rfl⟩
      have hsplit : Call.profile :: Call.create :: (n :: rest).map Call.search =
          [Call.profile, Call.create] ++ (n :: rest).map Call.search := rfl
      rw [hsplit, searchCallsOf_append, searchCallsOf_searches]
      rfl
    · rw [run_ok_matches env n rest me pl hp hc hm, if_neg hm]
      refine ⟨?_, rfl⟩
      have hns := appendChunks_no_search env
        (chunks (matchedRefs env (n :: rest) 0)) 0
      have hsplit : Call.profile :: Call.create ::
          ((n :: rest).map Call.search ++
            (addTracksRun env (matchedRefs env (n :: rest) 0)).1) =
          [Call.profile, Call.create] ++
            ((n :: rest).map Call.search ++
              (addTracksRun env (matchedRefs env (n :: rest) 0)).1) := rfl
      rw [hsplit, searchCallsOf_append, searchCallsOf_append,
        searchCallsOf_searches]
      simp only [addTracksRun] at *
      rw [hns]
      show ([] : List String) ++ (n :: rest ++ []) = n :: rest
      simp

/-- Witness for C9: the same name twice; both searches run and both
matched references are appended. -/
theorem run_order_no_dedup_witness :
    searchCallsOf (run envDup ["Song", "Song"]).calls = ["Song", "Song"] ∧
      (run envDup ["Song", "Song"]).appended =
        (if matchedRefs envDup ["Song", "Song"] 0 = [] then none
         else some (matchedRefs envDup ["Song", "Song"] 0)) :=
  run_order_no_dedup envDup ["Song", "Song"] "me" ⟨"pid", "purl"⟩ rfl rfl

end SpotifyPlaylister
